import Mathlib

/-!
Shallow embedding of the core of the `spawner` ("Plane") control plane:
the controller's cluster scheduler (`src/controller/src/scheduler.rs`),
the schedule-request → spawn-request construction
(`src/core/src/messages/scheduler.rs`), and the drone executor's
backend state machine (`src/drone/src/agent/executor.rs`).

Conventions of the embedding:
* `DashMap` becomes an association list whose insert/remove/lookup
  operations mirror the map semantics; a well-formedness predicate
  (`WF`) records the no-duplicate-keys property that a hash map has
  by construction.
* `DateTime<Utc>` timestamps become `Int` ticks (seconds); chrono's
  `checked_sub_signed` becomes a range-checked subtraction whose
  `none` result marks the `unwrap` panic branch of the Rust code.
* `thread_rng`-based random choice becomes a caller-supplied `pick`
  function; `ValidPick` states exactly the properties guaranteed by
  `SliceRandom::choose` (none iff the slice is empty, member otherwise).
* The executor's engine/database/network effects become oracle inputs
  (`StepEnv`, `RaceEvent`), and `tokio::select!` races become explicit
  event lists.  Running out of oracle events yields `none`
  (an unfinished run), never a fabricated result.
-/

set_option autoImplicit false

namespace Spawner

/-! ## Identifiers (plane_core types) -/

abbrev ClusterName := String
abbrev DroneId := String
abbrev BackendId := String

/-! ## Association-list maps standing in for `DashMap` -/

/-- First-match lookup, the association-list counterpart of `DashMap::get`. -/
def lookupKV {α β : Type} [DecidableEq α] : List (α × β) → α → Option β
  | [], _ => none
  | (k, v) :: rest, a => if k = a then some v else lookupKV rest a

/-- `DashMap::insert`: replace the value of an existing key in place,
otherwise append the new binding. -/
def insertKV {α β : Type} [DecidableEq α] : List (α × β) → α → β → List (α × β)
  | [], a, b => [(a, b)]
  | (k, v) :: rest, a, b =>
    if k = a then (k, b) :: rest else (k, v) :: insertKV rest a b

/-- `DashMap::remove`: drop the binding of a key (no-op when absent). -/
def removeKV {α β : Type} [DecidableEq α] : List (α × β) → α → List (α × β)
  | [], _ => []
  | (k, v) :: rest, a =>
    if k = a then removeKV rest a else (k, v) :: removeKV rest a

/-- A map has no duplicate keys (true of every `DashMap` by construction). -/
def WFmap {α β : Type} (m : List (α × β)) : Prop := (m.map Prod.fst).Nodup

/-! ## Drone liveness index (`src/controller/src/scheduler.rs`) -/

/-- `DroneStatusMessage` from `plane_core::messages::agent`, as used by
the scheduler (fields per the spec's `DroneStatus` record). -/
structure DroneStatusMessage where
  drone_id : DroneId
  cluster : ClusterName
  drone_version : String
  ready : Bool
  running_backends : Option Nat
  deriving DecidableEq, Repr

/-- The scheduler's state: `DashMap<ClusterName, DashMap<DroneId, DateTime<Utc>>>`. -/
abbrev ClusterMap := List (DroneId × Int)
abbrev LivenessIndex := List (ClusterName × ClusterMap)

/-- Well-formedness that a nested `DashMap` has by construction:
no duplicate cluster keys and no duplicate drone keys inside a cluster. -/
def WF (s : LivenessIndex) : Prop :=
  WFmap s ∧ ∀ p ∈ s, WFmap p.snd

instance {α β : Type} (m : List (α × β)) [DecidableEq α] : Decidable (WFmap m) := by
  unfold WFmap
  infer_instance

instance (s : LivenessIndex) : Decidable (WF s) := by
  unfold WF
  infer_instance

/-- `self.last_status.entry(cluster).or_default()` followed by a mutation of
the entry's map: apply `f` to the cluster's map, creating the entry (from the
empty map) when the cluster was never seen. -/
def updateCluster : LivenessIndex → ClusterName → (ClusterMap → ClusterMap) → LivenessIndex
  | [], c, f => [(c, f [])]
  | (k, m) :: rest, c, f =>
    if k = c then (k, f m) :: rest else (k, m) :: updateCluster rest c f

/-- `Scheduler::update_status` (scheduler.rs lines 29–42): ready drones are
inserted with the message timestamp, non-ready drones are removed. -/
def updateStatus (timestamp : Int) (status : DroneStatusMessage)
    (s : LivenessIndex) : LivenessIndex :=
  updateCluster s status.cluster fun m =>
    if status.ready then insertKV m status.drone_id timestamp
    else removeKV m status.drone_id

/-- The cluster-entry creation of `update_status` on its own
(`entry(...).or_default()` with no mutation). -/
def ensureCluster (c : ClusterName) (s : LivenessIndex) : LivenessIndex :=
  updateCluster s c id

/-- The last recorded ready-heartbeat timestamp of a drone in a cluster. -/
def droneTimestamp (s : LivenessIndex) (c : ClusterName) (d : DroneId) : Option Int :=
  (lookupKV s c).bind fun m => lookupKV m d

/-! ## `Scheduler::schedule` -/

/-- Lower bound of chrono's representable `DateTime<Utc>` range, in seconds.
The theorems below do not depend on the exact value. -/
def timeMin : Int := -8334601228800

/-- Upper bound of chrono's representable `DateTime<Utc>` range, in seconds.
The theorems below do not depend on the exact value. -/
def timeMax : Int := 8210266876799

/-- A timestamp chrono can represent. -/
def representable (t : Int) : Prop := timeMin ≤ t ∧ t ≤ timeMax

instance (t : Int) : Decidable (representable t) := by
  unfold representable; infer_instance

/-- chrono's `checked_sub_signed`: `none` models the out-of-range case that
the Rust code turns into a panic via `.unwrap()`. -/
def checkedSubSigned (t d : Int) : Option Int :=
  if representable (t - d) then some (t - d) else none

inductive SchedulerError where
  | NoDroneAvailable
  deriving DecidableEq, Repr

/-- Properties guaranteed by `drone_ids.choose(&mut thread_rng())`:
the choice is `none` exactly on the empty slice and otherwise an element. -/
def ValidPick (pick : List DroneId → Option DroneId) : Prop :=
  (∀ l, pick l = none ↔ l = []) ∧ ∀ l d, pick l = some d → d ∈ l

/-- `Scheduler::schedule` (scheduler.rs lines 44–82).  The outer `Option` is
`none` exactly on the `.unwrap()` panic of the threshold computation; `pick`
stands for the random choice. -/
def schedule (pick : List DroneId → Option DroneId) (s : LivenessIndex)
    (cluster : ClusterName) (current : Int) :
    Option (Except SchedulerError DroneId) :=
  match checkedSubSigned current 5 with
  | none => none
  | some threshold =>
    match lookupKV s cluster with
    | none => some (.error .NoDroneAvailable)
    | some clusterDrones =>
      let droneIds : List DroneId :=
        (clusterDrones.filter fun d => threshold < d.snd).map Prod.fst
      some ((pick droneIds).elim (.error .NoDroneAvailable) .ok)

/-! ## Schedule request → spawn request (`src/core/src/messages/scheduler.rs`) -/

/-- Modelled from the spec: `DockerExecutableConfig` lives in
`core/src/messages/agent.rs`, which is not under `src/`; the spec describes it
only as "Configuration for docker run (image, creds, env vars etc.)".  The
scheduler copies it verbatim, so an opaque payload suffices. -/
structure DockerExecutableConfig where
  conf : String
  deriving DecidableEq, Repr

/-- Modelled from the spec: `SpawnRequest` lives in
`core/src/messages/agent.rs`, which is not under `src/`; its fields are the
spec's `{drone_id, backend_id, max_idle_secs, metadata, executable,
bearer_token}`, exactly the fields `ScheduleRequest::schedule` fills in.
`max_idle_secs` (a `Duration`) is modelled in whole seconds. -/
structure SpawnRequest where
  drone_id : DroneId
  backend_id : BackendId
  max_idle_secs : Nat
  metadata : List (String × String)
  executable : DockerExecutableConfig
  bearer_token : Option String
  deriving DecidableEq, Repr

/-- `ScheduleRequest` (messages/scheduler.rs lines 13–32). -/
structure ScheduleRequest where
  cluster : ClusterName
  backend_id : Option BackendId
  max_idle_secs : Nat
  metadata : List (String × String)
  executable : DockerExecutableConfig
  require_bearer_token : Bool
  deriving DecidableEq, Repr

/-- `ScheduleRequest::schedule` (messages/scheduler.rs lines 34–54).
`freshId` stands for `BackendId::new_random()`; the returned `Bool` records
whether the `require_bearer_token` warning was logged. -/
def ScheduleRequest.schedule (req : ScheduleRequest) (drone_id : DroneId)
    (freshId : BackendId) : SpawnRequest × Bool :=
  let backend_id := req.backend_id.getD freshId
  let warned := req.require_bearer_token
  (⟨drone_id, backend_id, req.max_idle_secs, req.metadata, req.executable, none⟩,
   warned)

/-! ## Backend states (`plane_core::messages::agent`) -/

/-- Modelled from the spec: `BackendState` lives in
`core/src/messages/agent.rs`, which is not under `src/`; the spec lists the
variants "Loading, Starting, Ready, ErrorLoading, ErrorStarting,
TimedOutBeforeReady, Failed, Exited, Swept, Terminated". -/
inductive BackendState where
  | Loading
  | Starting
  | Ready
  | ErrorLoading
  | ErrorStarting
  | TimedOutBeforeReady
  | Failed
  | Exited
  | Swept
  | Terminated
  deriving DecidableEq, Repr, Fintype

/-- Modelled from the spec: "Predicate `running()` is true for `Starting`
and `Ready`" (the implementation is in `core/src/messages/agent.rs`, not
under `src/`). -/
def BackendState.running : BackendState → Bool
  | .Starting | .Ready => true
  | _ => false

/-- The terminal set of §4.5:
{ErrorLoading, ErrorStarting, TimedOutBeforeReady, Failed, Exited, Swept,
Terminated} — exactly the states `Executor::step` answers with `engine.stop`. -/
def BackendState.terminal : BackendState → Bool
  | .ErrorLoading | .ErrorStarting | .TimedOutBeforeReady
  | .Failed | .Exited | .Swept | .Terminated => true
  | _ => false

/-! ## `Executor::step` (`src/drone/src/agent/executor.rs` lines 302–386) -/

/-- `EngineBackendStatus` as consumed by `step` (the engine interface of
§4.4); the address is kept abstract as a string. -/
inductive EngineBackendStatus where
  | Loading
  | Starting
  | Running (addr : String)
  | Failed
  | Exited
  | Terminated
  deriving DecidableEq, Repr

instance {ε α : Type} [DecidableEq ε] [DecidableEq α] : DecidableEq (Except ε α) := fun
  | .error a, .error b =>
    if h : a = b then .isTrue (by rw [h])
    else .isFalse (by intro hc; cases hc; exact h rfl)
  | .error _, .ok _ => .isFalse (by intro hc; cases hc)
  | .ok _, .error _ => .isFalse (by intro hc; cases hc)
  | .ok a, .ok b =>
    if h : a = b then .isTrue (by rw [h])
    else .isFalse (by intro hc; cases hc; exact h rfl)

/-- Oracle for the effectful calls one `step` invocation can make.  Each
field is the outcome the corresponding call would produce if reached;
`idleOutcome` summarises the whole `Ready` idle-wait loop (database reads,
checked add, sleeps), which either errors or eventually observes the idle
deadline passed. -/
structure StepEnv where
  load : Except Unit Unit
  backendStatus : Except Unit EngineBackendStatus
  waitPortReady : Except Unit Unit
  insertProxyRoute : Except Unit Unit
  idleOutcome : Except Unit Unit
  stop : Except Unit Unit
  deriving DecidableEq, Repr

/-- The observable effect calls a `step` invocation makes, in order. -/
inductive EffCall where
  | load
  | statusCall
  | waitPort (addr : String)
  | proxyRoute (addr : String)
  | idleWait
  | stopCall
  deriving DecidableEq, Repr

/-- `Executor::step`: the `spawn_request` parameter is kept for fidelity (the
real code reads ids and the idle duration from it, all folded into the
oracle outcomes).  Returns the Rust result together with the trace of
engine/database calls made. -/
def step (env : StepEnv) (_spawn_request : SpawnRequest) :
    BackendState → Except Unit (Option BackendState) × List EffCall
  | .Loading =>
    match env.load with
    | .error e => (.error e, [.load])
    | .ok _ => (.ok (some .Starting), [.load])
  | .Starting =>
    match env.backendStatus with
    | .error e => (.error e, [.statusCall])
    | .ok (.Running addr) =>
      match env.waitPortReady with
      | .error e => (.error e, [.statusCall, .waitPort addr])
      | .ok _ =>
        match env.insertProxyRoute with
        | .error e => (.error e, [.statusCall, .waitPort addr, .proxyRoute addr])
        | .ok _ =>
          (.ok (some .Ready), [.statusCall, .waitPort addr, .proxyRoute addr])
    | .ok _ => (.ok (some .ErrorStarting), [.statusCall])
  | .Ready =>
    match env.backendStatus with
    | .error e => (.error e, [.statusCall])
    | .ok .Failed => (.ok (some .Failed), [.statusCall])
    | .ok .Exited => (.ok (some .Exited), [.statusCall])
    | .ok .Terminated => (.ok (some .Swept), [.statusCall])
    | .ok _ =>
      match env.idleOutcome with
      | .error e => (.error e, [.statusCall, .idleWait])
      | .ok _ => (.ok (some .Swept), [.statusCall, .idleWait])
  | _ =>
    match env.stop with
    | .error _ => (.error (), [.stopCall])
    | .ok _ => (.ok none, [.stopCall])

/-! ## `Executor::run_backend` (`src/drone/src/agent/executor.rs` lines 193–282) -/

/-- One resolution of the `tokio::select!` race between `step` and
`recv(signal)`: either a signal wins first (`interrupt`, `terminate`, or the
sender being dropped, `dropped`), or the step completes with the engine
outcomes `env`. -/
inductive RaceEvent where
  | interrupt
  | terminate
  | dropped
  | stepCompletes (env : StepEnv)
  deriving DecidableEq, Repr

/-- Oracle input for one iteration of `run_backend`'s outer loop: the race
resolutions consumed while the state is interruptible, and the step outcomes
used when the state is `Swept` (where the code never consults the channel). -/
structure Iteration where
  events : List RaceEvent
  sweptEnv : StepEnv
  deriving DecidableEq, Repr

/-- Result of `run_backend`'s inner loop: a `next_state` value for the outer
match, or the early `return` on a lost signal sender. -/
inductive InnerResult where
  | next (r : Except Unit (Option BackendState))
  | senderLost
  deriving DecidableEq, Repr

/-- The inner `loop`'s `tokio::select!` arm (executor.rs lines 219–234):
`Interrupt` restarts the step with the same state, `Terminate` breaks with
`Ok(Some(Terminated))`, a dropped sender returns, and a completed step breaks
with its result.  `none` means the oracle ran out of events (the race is
still pending). -/
def runRace (spawn_request : SpawnRequest) (state : BackendState) :
    List RaceEvent → Option InnerResult
  | [] => none
  | .interrupt :: rest => runRace spawn_request state rest
  | .terminate :: _ => some (.next (.ok (some .Terminated)))
  | .dropped :: _ => some .senderLost
  | .stepCompletes env :: _ => some (.next (step env spawn_request state).1)

/-- The inner `loop` of `run_backend` (executor.rs lines 212–236): in state
`Swept` the step runs without racing the signal channel. -/
def runIteration (spawn_request : SpawnRequest) (state : BackendState)
    (it : Iteration) : Option InnerResult :=
  if state = .Swept then some (.next (step it.sweptEnv spawn_request state).1)
  else runRace spawn_request state it.events

/-- How `run_backend` exited its loop. -/
inductive ExitKind where
  | success
  | errorExit
  | senderLost
  deriving DecidableEq, Repr

/-- Observable outcome of a `run_backend` run for one backend:
`published` is the sequence of states passed to `update_backend_state`
(each call persists to the local database and publishes durably on
`backend.<B>.state`), and `inMonitor` / `inListener` record whether the
backend still has an entry in `backend_to_monitor` / `backend_to_listener`
when the task ends. -/
structure RunResult where
  published : List BackendState
  exit : ExitKind
  inMonitor : Bool
  inListener : Bool
  deriving DecidableEq, Repr

/-- `Executor::run_backend` (executor.rs lines 193–282).  The listener entry
is inserted on entry (hence `inListener` starts true), `inMon` is the monitor
map membership on entry (`start_backend` passes false; `resume_backends`
passes true for `running()` states).  `none` means the oracle input ended
before the run did. -/
def runBackend (spawn_request : SpawnRequest) :
    BackendState → Bool → List Iteration → Option RunResult
  | _, _, [] => none
  | state, inMon, it :: rest =>
    match runIteration spawn_request state it with
    | none => none
    | some .senderLost =>
      -- `return` on "Signal sender lost!": skips the map removals.
      some ⟨[], .senderLost, inMon, true⟩
    | some (.next (.ok (some newState))) =>
      let inMon' := inMon || newState.running
      match runBackend spawn_request newState inMon' rest with
      | none => none
      | some r => some ⟨newState :: r.published, r.exit, r.inMonitor, r.inListener⟩
    | some (.next (.ok none)) =>
      -- Successful termination: `break`, then both map entries are removed.
      some ⟨[], .success, false, false⟩
    | some (.next (.error _)) =>
      match state with
      | .Loading => some ⟨[.ErrorLoading], .errorExit, false, false⟩
      | _ => some ⟨[], .errorExit, false, false⟩

/-! ## Association-list lemmas -/

theorem lookupKV_mem {α β : Type} [DecidableEq α] {m : List (α × β)} {a : α} {b : β}
    (h : lookupKV m a = some b) : (a, b) ∈ m := by
  induction m with
  | nil => simp [lookupKV] at h
  | cons p rest ih =>
    obtain ⟨k, v⟩ := p
    simp only [lookupKV] at h
    split at h
    · next hk =>
        obtain rfl := hk
        obtain rfl := Option.some.inj h
        exact List.mem_cons_self _ _
    · exact List.mem_cons_of_mem _ (ih h)

theorem mem_lookupKV {α β : Type} [DecidableEq α] {m : List (α × β)}
    (hw : WFmap m) {a : α} {b : β} (h : (a, b) ∈ m) : lookupKV m a = some b := by
  induction m with
  | nil => simp at h
  | cons p rest ih =>
    obtain ⟨k, v⟩ := p
    have hw' : k ∉ rest.map Prod.fst ∧ WFmap rest := by
      simpa [WFmap, List.nodup_cons] using hw
    rcases List.mem_cons.mp h with h1 | h1
    · obtain ⟨rfl, rfl⟩ := Prod.mk.injEq .. ▸ h1
      simp [lookupKV]
    · have hka : k ≠ a := by
        intro hk
        exact hw'.1 (hk ▸ List.mem_map_of_mem Prod.fst h1)
      simp only [lookupKV, if_neg hka]
      exact ih hw'.2 h1

theorem removeKV_of_lookup_none {α β : Type} [DecidableEq α] {m : List (α × β)}
    {a : α} (h : lookupKV m a = none) : removeKV m a = m := by
  induction m with
  | nil => rfl
  | cons p rest ih =>
    obtain ⟨k, v⟩ := p
    simp only [lookupKV] at h
    split at h
    · exact absurd h (by simp)
    · next hk => simp only [removeKV, if_neg hk, ih h]

theorem removeKV_insertKV {α β : Type} [DecidableEq α] (m : List (α × β))
    (a : α) (b : β) : removeKV (insertKV m a b) a = removeKV m a := by
  induction m with
  | nil => simp [insertKV, removeKV]
  | cons p rest ih =>
    obtain ⟨k, v⟩ := p
    by_cases hk : k = a
    · simp [insertKV, removeKV, hk]
    · simp [insertKV, removeKV, hk, ih]

theorem updateCluster_updateCluster (s : LivenessIndex) (c : ClusterName)
    (f g : ClusterMap → ClusterMap) :
    updateCluster (updateCluster s c f) c g = updateCluster s c (g ∘ f) := by
  induction s with
  | nil => simp [updateCluster]
  | cons p rest ih =>
    obtain ⟨k, m⟩ := p
    by_cases hk : k = c
    · simp [updateCluster, hk]
    · simp [updateCluster, hk, ih]

theorem updateCluster_of_lookup_none {s : LivenessIndex} {c : ClusterName}
    (f : ClusterMap → ClusterMap) (h : lookupKV s c = none) :
    updateCluster s c f = s ++ [(c, f [])] := by
  induction s with
  | nil => rfl
  | cons p rest ih =>
    obtain ⟨k, m⟩ := p
    simp only [lookupKV] at h
    split at h
    · exact absurd h (by simp)
    · next hk => simp only [updateCluster, if_neg hk, List.cons_append, ih h]

theorem updateCluster_congr {s : LivenessIndex} {c : ClusterName} {m : ClusterMap}
    {f g : ClusterMap → ClusterMap} (h : lookupKV s c = some m) (hfg : f m = g m) :
    updateCluster s c f = updateCluster s c g := by
  induction s with
  | nil => simp [lookupKV] at h
  | cons p rest ih =>
    obtain ⟨k, mm⟩ := p
    simp only [lookupKV] at h
    by_cases hk : k = c
    · rw [if_pos hk] at h
      obtain rfl := Option.some.inj h
      simp [updateCluster, hk, hfg]
    · rw [if_neg hk] at h
      simp [updateCluster, hk, ih h]

theorem lookupKV_updateCluster_self (s : LivenessIndex) (c : ClusterName)
    (f : ClusterMap → ClusterMap) :
    lookupKV (updateCluster s c f) c = some (f ((lookupKV s c).getD [])) := by
  induction s with
  | nil => simp [updateCluster, lookupKV]
  | cons p rest ih =>
    obtain ⟨k, m⟩ := p
    by_cases hk : k = c
    · simp [updateCluster, lookupKV, hk]
    · simp [updateCluster, lookupKV, hk, ih]

theorem lookupKV_updateCluster_ne (s : LivenessIndex) {c c' : ClusterName}
    (f : ClusterMap → ClusterMap) (h : c' ≠ c) :
    lookupKV (updateCluster s c f) c' = lookupKV s c' := by
  have h' : c ≠ c' := Ne.symm h
  induction s with
  | nil => simp [updateCluster, lookupKV, h']
  | cons p rest ih =>
    obtain ⟨k, m⟩ := p
    by_cases hk : k = c
    · subst hk
      simp [updateCluster, lookupKV, h']
    · simp only [updateCluster, if_neg hk, lookupKV]
      by_cases hk' : k = c'
      · simp [hk']
      · simp [hk', ih]

theorem validPick_head : ValidPick (fun l => l.head?) := by
  constructor
  · intro l; cases l <;> simp
  · intro l d h; cases l <;> simp_all

/-! ## Scheduler reduction lemmas -/

theorem schedule_lookup_none {pick : List DroneId → Option DroneId}
    {s : LivenessIndex} {c : ClusterName} {now : Int}
    (hrep : representable (now - 5)) (hc : lookupKV s c = none) :
    schedule pick s c now = some (.error .NoDroneAvailable) := by
  simp [schedule, checkedSubSigned, hrep, hc]

theorem schedule_lookup_some {pick : List DroneId → Option DroneId}
    {s : LivenessIndex} {c : ClusterName} {now : Int} {m : ClusterMap}
    (hrep : representable (now - 5)) (hc : lookupKV s c = some m) :
    schedule pick s c now =
      some ((pick ((m.filter fun x => now - 5 < x.snd).map Prod.fst)).elim
        (.error .NoDroneAvailable) .ok) := by
  simp [schedule, checkedSubSigned, hrep, hc]

/-! ## Claim C1 -/

/-- C1: for every cluster and current timestamp, `Scheduler::schedule`
returns `Ok(d)` only if `d`'s last ready-heartbeat timestamp recorded for
that cluster is strictly greater than `current_timestamp - 5` seconds, and it
returns `Err(NoDroneAvailable)` exactly when the cluster is absent from the
liveness index or no recorded timestamp exceeds that threshold; in
particular a drone last heard from 9 seconds ago is never returned. -/
theorem schedule_liveness_window (pick : List DroneId → Option DroneId)
    (s : LivenessIndex) (c : ClusterName) (now : Int)
    (hw : WF s) (hp : ValidPick pick) :
    (∀ d, schedule pick s c now = some (.ok d) →
      ∃ ts, droneTimestamp s c d = some ts ∧ now - 5 < ts)
    ∧ (representable (now - 5) →
        (schedule pick s c now = some (.error .NoDroneAvailable) ↔
          lookupKV s c = none ∨
            ∀ d ts, droneTimestamp s c d = some ts → ts ≤ now - 5))
    ∧ ∀ d, droneTimestamp s c d = some (now - 9) →
        schedule pick s c now ≠ some (.ok d) := by
  by_cases hrep : representable (now - 5)
  case neg =>
    have hnone : schedule pick s c now = none := by
      simp [schedule, checkedSubSigned, hrep]
    refine ⟨?_, ?_, ?_⟩
    · intro d h
      rw [hnone] at h
      cases h
    · intro h
      exact absurd h hrep
    · intro d _ h
      rw [hnone] at h
      cases h
  case pos =>
    have hok : ∀ d, schedule pick s c now = some (.ok d) →
        ∃ ts, droneTimestamp s c d = some ts ∧ now - 5 < ts := by
      intro d h
      cases hc : lookupKV s c with
      | none =>
        rw [schedule_lookup_none hrep hc] at h
        simp at h
      | some m =>
        have hwm : WFmap m := hw.2 (c, m) (lookupKV_mem hc)
        rw [schedule_lookup_some hrep hc] at h
        cases hpick : pick ((m.filter fun x => now - 5 < x.snd).map Prod.fst) with
        | none => rw [hpick] at h; simp [Option.elim] at h
        | some dd =>
          rw [hpick] at h
          simp only [Option.elim, Option.some.injEq, Except.ok.injEq] at h
          subst h
          have hd := hp.2 _ _ hpick
          rcases List.mem_map.mp hd with ⟨x, hxf, hxd⟩
          rcases List.mem_filter.mp hxf with ⟨hxm, hxlt⟩
          refine ⟨x.snd, ?_, of_decide_eq_true hxlt⟩
          have hxm' : (dd, x.snd) ∈ m := by
            rw [← hxd]
            exact hxm
          simp only [droneTimestamp, hc, Option.bind_some]
          exact mem_lookupKV hwm hxm'
    have herr : schedule pick s c now = some (.error .NoDroneAvailable) ↔
        lookupKV s c = none ∨
          ∀ d ts, droneTimestamp s c d = some ts → ts ≤ now - 5 := by
      cases hc : lookupKV s c with
      | none => simp [schedule_lookup_none hrep hc]
      | some m =>
        have hwm : WFmap m := hw.2 (c, m) (lookupKV_mem hc)
        rw [schedule_lookup_some hrep hc]
        constructor
        · intro h
          cases hpick : pick ((m.filter fun x => now - 5 < x.snd).map Prod.fst) with
          | some dd => rw [hpick] at h; simp [Option.elim] at h
          | none =>
            refine Or.inr ?_
            intro d ts hts
            have hids := (hp.1 _).mp hpick
            by_contra hlt
            push_neg at hlt
            have hmem : (d, ts) ∈ m :=
              lookupKV_mem (by simpa [droneTimestamp, hc] using hts)
            have hdin : d ∈ (m.filter fun x => now - 5 < x.snd).map Prod.fst := by
              refine List.mem_map.mpr ⟨(d, ts), ?_, rfl⟩
              exact List.mem_filter.mpr ⟨hmem, by simpa using hlt⟩
            rw [hids] at hdin
            cases hdin
        · intro h
          rcases h with h | h
          · exact absurd h (by simp)
          · have hids : ((m.filter fun x => now - 5 < x.snd).map Prod.fst) = [] := by
              by_contra hne
              rcases List.exists_mem_of_ne_nil _ hne with ⟨d, hd⟩
              rcases List.mem_map.mp hd with ⟨x, hxf, hxd⟩
              rcases List.mem_filter.mp hxf with ⟨hxm, hxlt⟩
              have hxm' : (x.fst, x.snd) ∈ m := hxm
              have hlk := mem_lookupKV hwm hxm'
              have hle := h x.fst x.snd (by simpa [droneTimestamp, hc] using hlk)
              have hgt := of_decide_eq_true hxlt
              omega
            rw [hids, (hp.1 []).mpr rfl]
            rfl
    refine ⟨hok, fun _ => herr, ?_⟩
    intro d hd hcon
    obtain ⟨ts, h1, h2⟩ := hok d hcon
    rw [hd] at h1
    obtain rfl := Option.some.inj h1
    omega

/-- Witness for C1: a drone whose only heartbeat is 9 seconds old is not
schedulable. -/
theorem schedule_liveness_window_witness :
    schedule (fun l => l.head?) [("c1", [("d1", 100)])] "c1" 109 ≠
      some (Except.ok "d1") :=
  (schedule_liveness_window (fun l => l.head?) [("c1", [("d1", 100)])] "c1" 109
    (by decide) validPick_head).2.2 "d1" (by decide)

/-! ## Claim C9 -/

/-- C9: `Scheduler::schedule` is total whenever `current_timestamp - 5`
seconds is representable; the `unwrap` of the checked subtraction is the only
panic branch, and under that precondition it is not taken. -/
theorem schedule_total (pick : List DroneId → Option DroneId)
    (s : LivenessIndex) (c : ClusterName) (now : Int)
    (hrep : representable (now - 5)) :
    (schedule pick s c now).isSome = true := by
  cases hc : lookupKV s c with
  | none => rw [schedule_lookup_none hrep hc]; rfl
  | some m => rw [schedule_lookup_some hrep hc]; rfl

/-- Witness for C9 at an empty index and timestamp 100. -/
theorem schedule_total_witness :
    (schedule (fun l => l.head?) [] "c1" 100).isSome = true :=
  schedule_total (fun l => l.head?) [] "c1" 100 (by decide)

/-! ## Claim C10 -/

/-- C10: after any `update_status` call the message's cluster has an entry
in the liveness index (even for a `ready=false` message about an unknown
cluster); `update_status` never removes an existing cluster entry (and
`schedule` takes `&self`, mutating nothing); and `schedule` answers
`NoDroneAvailable` for a present-but-empty cluster entry exactly as for an
absent one. -/
theorem updateStatus_cluster_entries (t : Int) (msg : DroneStatusMessage)
    (s : LivenessIndex) (pick : List DroneId → Option DroneId) (now : Int) :
    (lookupKV (updateStatus t msg s) msg.cluster).isSome = true
    ∧ (∀ c, (lookupKV s c).isSome = true →
        (lookupKV (updateStatus t msg s) c).isSome = true)
    ∧ (∀ c, lookupKV s c = some [] → representable (now - 5) → ValidPick pick →
        schedule pick s c now = some (.error .NoDroneAvailable))
    ∧ (∀ c, lookupKV s c = none → representable (now - 5) →
        schedule pick s c now = some (.error .NoDroneAvailable)) := by
  refine ⟨?_, ?_, ?_, ?_⟩
  · rw [updateStatus, lookupKV_updateCluster_self]
    rfl
  · intro c hc
    by_cases h : c = msg.cluster
    · subst h
      rw [updateStatus, lookupKV_updateCluster_self]
      rfl
    · rw [updateStatus, lookupKV_updateCluster_ne _ _ h]
      exact hc
  · intro c hc hrep hp
    rw [schedule_lookup_some hrep hc]
    simp only [List.filter_nil, List.map_nil]
    rw [(hp.1 []).mpr rfl]
    rfl
  · intro c hc hrep
    exact schedule_lookup_none hrep hc

/-- Witness for C10: a `ready=false` heartbeat about a never-seen cluster
creates an (empty) entry for it. -/
theorem updateStatus_cluster_entries_witness :
    (lookupKV (updateStatus 7 ⟨"d1", "c1", "v0", false, none⟩ [])
      "c1").isSome = true :=
  (updateStatus_cluster_entries 7 ⟨"d1", "c1", "v0", false, none⟩ []
    (fun l => l.head?) 100).1

/-! ## Claim C4 (corrected) -/

/-- Counterexample to C4 as stated: on an index that has never seen cluster
`c1`, a `ready=true` heartbeat followed by `ready=false` leaves an (empty)
entry for `c1`, so the index is not the never-heard index (which has no
entry at all). -/
theorem updateStatus_roundtrip_counterexample :
    updateStatus 1 ⟨"d1", "c1", "v0", false, none⟩
      (updateStatus 0 ⟨"d1", "c1", "v0", true, none⟩ []) ≠ ([] : LivenessIndex) := by
  decide

/-- C4 as amended: `ready=true` then `ready=false` for a drone is the same
as the `ready=false` message alone; on an index that never recorded the
drone, that differs from the never-heard index only in that the cluster's
entry is forced to exist (`ensureCluster`). -/
theorem updateStatus_true_then_false (s : LivenessIndex) (t1 t2 : Int)
    (c : ClusterName) (d : DroneId) (v1 v2 : String) (rb1 rb2 : Option Nat) :
    updateStatus t2 ⟨d, c, v2, false, rb2⟩
        (updateStatus t1 ⟨d, c, v1, true, rb1⟩ s)
      = updateStatus t2 ⟨d, c, v2, false, rb2⟩ s
    ∧ (droneTimestamp s c d = none →
        updateStatus t2 ⟨d, c, v2, false, rb2⟩ s = ensureCluster c s) := by
  constructor
  · rw [updateStatus, updateStatus, updateStatus, updateCluster_updateCluster]
    apply congrArg
    funext m
    simp only [Function.comp]
    exact removeKV_insertKV m d t1
  · intro hnone
    rw [updateStatus, ensureCluster]
    cases hc : lookupKV s c with
    | none =>
      rw [updateCluster_of_lookup_none _ hc, updateCluster_of_lookup_none _ hc]
      rfl
    | some m =>
      refine updateCluster_congr hc ?_
      simp only [droneTimestamp, hc, Option.bind_some] at hnone
      simp only [id]
      exact removeKV_of_lookup_none hnone

/-- Witness for the amended C4 at a concrete index already holding another
drone. -/
theorem updateStatus_true_then_false_witness :
    updateStatus 2 ⟨"d1", "c1", "v0", false, none⟩
        (updateStatus 1 ⟨"d1", "c1", "v0", true, none⟩ [("c1", [("d2", 0)])])
      = updateStatus 2 ⟨"d1", "c1", "v0", false, none⟩ [("c1", [("d2", 0)])] :=
  (updateStatus_true_then_false [("c1", [("d2", 0)])] 1 2 "c1" "d1" "v0" "v0"
    none none).1

/-! ## Claim C6 -/

/-- C6: `ScheduleRequest::schedule` builds a `SpawnRequest` whose
`backend_id` is the request's id when supplied and the freshly generated
random id otherwise, copies `drone_id`, `max_idle_secs`, `metadata` and
`executable` from the inputs, always sets `bearer_token = None`, and when
`require_bearer_token` is set logs a warning but still returns a
`SpawnRequest`. -/
theorem scheduleRequest_schedule_spec (req : ScheduleRequest)
    (drone_id : DroneId) (freshId : BackendId) :
    (∀ b, req.backend_id = some b →
      (req.schedule drone_id freshId).1.backend_id = b)
    ∧ (req.backend_id = none →
        (req.schedule drone_id freshId).1.backend_id = freshId)
    ∧ (req.schedule drone_id freshId).1.drone_id = drone_id
    ∧ (req.schedule drone_id freshId).1.max_idle_secs = req.max_idle_secs
    ∧ (req.schedule drone_id freshId).1.metadata = req.metadata
    ∧ (req.schedule drone_id freshId).1.executable = req.executable
    ∧ (req.schedule drone_id freshId).1.bearer_token = none
    ∧ (req.schedule drone_id freshId).2 = req.require_bearer_token := by
  refine ⟨?_, ?_, rfl, rfl, rfl, rfl, rfl, rfl⟩
  · intro b hb
    simp [ScheduleRequest.schedule, hb]
  · intro hb
    simp [ScheduleRequest.schedule, hb]

/-- Witness for C6 at a concrete request carrying `require_bearer_token`. -/
theorem scheduleRequest_schedule_spec_witness :
    (ScheduleRequest.schedule ⟨"c1", none, 10, [], ⟨"img"⟩, true⟩
      "d1" "b1").1.backend_id = "b1" :=
  (scheduleRequest_schedule_spec ⟨"c1", none, 10, [], ⟨"img"⟩, true⟩
    "d1" "b1").2.1 rfl

/-! ## Concrete fixtures used by witnesses and counterexamples -/

/-- A concrete spawn request. -/
def spec0 : SpawnRequest := ⟨"d1", "b1", 10, [], ⟨"img"⟩, none⟩

/-- An environment in which every engine/database call succeeds and the
backend reports `Running`. -/
def envAllOk : StepEnv :=
  ⟨.ok (), .ok (.Running "10.0.0.1:8080"), .ok (), .ok (), .ok (), .ok ()⟩

/-- An environment in which `engine.backend_status` fails. -/
def envStatusErr : StepEnv := ⟨.ok (), .error (), .ok (), .ok (), .ok (), .ok ()⟩

/-! ## Claim C2 -/

/-- C2: `Executor::step` implements the §4.5 transition table: `Loading`
calls `engine.load` and yields `Starting`; `Starting` yields `Ready` when
the status is `Running{addr}` (after waiting for the port and persisting the
proxy route) and `ErrorStarting` for any other status; `Ready` yields
`Failed`/`Exited`/`Swept` when the status is `Failed`/`Exited`/`Terminated`
respectively; every terminal state calls `engine.stop` and yields `None`. -/
theorem executor_step_table (env : StepEnv) (spec : SpawnRequest) :
    (env.load = .ok () →
      step env spec .Loading = (.ok (some .Starting), [.load]))
    ∧ (∀ a, env.backendStatus = .ok (.Running a) → env.waitPortReady = .ok () →
        env.insertProxyRoute = .ok () →
        step env spec .Starting =
          (.ok (some .Ready), [.statusCall, .waitPort a, .proxyRoute a]))
    ∧ (∀ st, env.backendStatus = .ok st → (∀ a, st ≠ .Running a) →
        step env spec .Starting = (.ok (some .ErrorStarting), [.statusCall]))
    ∧ (env.backendStatus = .ok .Failed →
        step env spec .Ready = (.ok (some .Failed), [.statusCall]))
    ∧ (env.backendStatus = .ok .Exited →
        step env spec .Ready = (.ok (some .Exited), [.statusCall]))
    ∧ (env.backendStatus = .ok .Terminated →
        step env spec .Ready = (.ok (some .Swept), [.statusCall]))
    ∧ ∀ s, s.terminal = true →
        (step env spec s).2 = [.stopCall]
        ∧ (env.stop = .ok () → step env spec s = (.ok none, [.stopCall])) := by
  refine ⟨?_, ?_, ?_, ?_, ?_, ?_, ?_⟩
  · intro h
    simp [step, h]
  · intro a h hwp hpr
    simp [step, h, hwp, hpr]
  · intro st h hne
    cases st with
    | Running a => exact absurd rfl (hne a)
    | Loading => simp [step, h]
    | Starting => simp [step, h]
    | Failed => simp [step, h]
    | Exited => simp [step, h]
    | Terminated => simp [step, h]
  · intro h
    simp [step, h]
  · intro h
    simp [step, h]
  · intro h
    simp [step, h]
  · intro s hs
    cases s
    case Loading => exact absurd hs (by decide)
    case Starting => exact absurd hs (by decide)
    case Ready => exact absurd hs (by decide)
    all_goals
      refine ⟨?_, ?_⟩
      · cases h : env.stop <;> simp [step, h]
      · intro h
        simp [step, h]

/-- Witness for C2: with a fully successful environment, `Loading` steps to
`Starting` after the single `load` call. -/
theorem executor_step_table_witness :
    step envAllOk spec0 .Loading = (.ok (some .Starting), [.load]) :=
  (executor_step_table envAllOk spec0).1 rfl

/-! ## Claim C5 -/

/-- C5: if `step` fails while the state is `Loading`, `run_backend`
transitions to `ErrorLoading` (persisting and publishing it) and exits the
loop; if `step` fails in any other state, it logs and exits the loop without
persisting or publishing any state.  In both cases the loop is left by
`break`, so the map entries are removed. -/
theorem executor_error_policy (spec : SpawnRequest) (state : BackendState)
    (inMon : Bool) (it : Iteration) (rest : List Iteration)
    (h : runIteration spec state it = some (.next (.error ()))) :
    runBackend spec state inMon (it :: rest) =
      some ⟨if state = .Loading then [.ErrorLoading] else [],
            .errorExit, false, false⟩ := by
  cases state <;> simp [runBackend, h]

/-- Witness for C5: a `backend_status` failure in `Starting` ends the run
with no published state. -/
theorem executor_error_policy_witness :
    runBackend spec0 .Starting false [⟨[.stepCompletes envStatusErr], envAllOk⟩] =
      some ⟨[], .errorExit, false, false⟩ := by
  have h := executor_error_policy spec0 .Starting false
    ⟨[.stepCompletes envStatusErr], envAllOk⟩ [] rfl
  simpa using h

/-! ## Reduction equations for `runBackend` -/

theorem runBackend_cons (spec : SpawnRequest) (state : BackendState)
    (inMon : Bool) (it : Iteration) (rest : List Iteration) :
    runBackend spec state inMon (it :: rest) =
      match runIteration spec state it with
      | none => none
      | some .senderLost => some ⟨[], .senderLost, inMon, true⟩
      | some (.next (.ok (some ns))) =>
        match runBackend spec ns (inMon || ns.running) rest with
        | none => none
        | some r => some ⟨ns :: r.published, r.exit, r.inMonitor, r.inListener⟩
      | some (.next (.ok none)) => some ⟨[], .success, false, false⟩
      | some (.next (.error _)) =>
        match state with
        | .Loading => some ⟨[.ErrorLoading], .errorExit, false, false⟩
        | _ => some ⟨[], .errorExit, false, false⟩ := rfl

theorem runBackend_cons_none (spec : SpawnRequest) (state : BackendState)
    (inMon : Bool) (it : Iteration) (rest : List Iteration)
    (hi : runIteration spec state it = none) :
    runBackend spec state inMon (it :: rest) = none := by
  rw [runBackend_cons, hi]

theorem runBackend_cons_senderLost (spec : SpawnRequest) (state : BackendState)
    (inMon : Bool) (it : Iteration) (rest : List Iteration)
    (hi : runIteration spec state it = some .senderLost) :
    runBackend spec state inMon (it :: rest) =
      some ⟨[], .senderLost, inMon, true⟩ := by
  rw [runBackend_cons, hi]

theorem runBackend_cons_ok_none (spec : SpawnRequest) (state : BackendState)
    (inMon : Bool) (it : Iteration) (rest : List Iteration)
    (hi : runIteration spec state it = some (.next (.ok none))) :
    runBackend spec state inMon (it :: rest) =
      some ⟨[], .success, false, false⟩ := by
  rw [runBackend_cons, hi]

theorem runBackend_cons_error (spec : SpawnRequest) (state : BackendState)
    (inMon : Bool) (it : Iteration) (rest : List Iteration) (e : Unit)
    (hi : runIteration spec state it = some (.next (.error e))) :
    runBackend spec state inMon (it :: rest) =
      some ⟨if state = .Loading then [.ErrorLoading] else [],
            .errorExit, false, false⟩ := by
  rw [runBackend_cons, hi]
  cases state <;> rfl

theorem runBackend_cons_ok_some (spec : SpawnRequest) (state : BackendState)
    (inMon : Bool) (it : Iteration) (rest : List Iteration) (ns : BackendState)
    (hi : runIteration spec state it = some (.next (.ok (some ns)))) :
    runBackend spec state inMon (it :: rest) =
      match runBackend spec ns (inMon || ns.running) rest with
      | none => none
      | some r => some ⟨ns :: r.published, r.exit, r.inMonitor, r.inListener⟩ := by
  rw [runBackend_cons, hi]

/-! ## Claim C7 -/

/-- C7: when the state is not `Swept` and a `Terminate` signal wins the
inner race, the loop breaks with next state `Terminated`, which is the next
state persisted and published; when the state is `Swept` the step runs
without racing the signal channel, so the iteration's outcome is the step
result no matter what signals are pending. -/
theorem executor_terminate_signal (spec : SpawnRequest) (state : BackendState)
    (inMon : Bool) (evts : List RaceEvent) (env : StepEnv)
    (rest : List Iteration) :
    (state ≠ .Swept → ∀ r,
      runBackend spec state inMon (⟨.terminate :: evts, env⟩ :: rest) = some r →
      r.published.head? = some .Terminated)
    ∧ ∀ it : Iteration, runIteration spec .Swept it =
        some (.next (step it.sweptEnv spec .Swept).1) := by
  constructor
  · intro hs r h
    have hit : runIteration spec state ⟨.terminate :: evts, env⟩ =
        some (.next (.ok (some .Terminated))) := by
      simp [runIteration, hs, runRace]
    rw [runBackend_cons_ok_some spec state inMon _ rest .Terminated hit] at h
    cases hrec : runBackend spec .Terminated
        (inMon || BackendState.Terminated.running) rest with
    | none =>
      rw [hrec] at h
      cases h
    | some rr =>
      rw [hrec] at h
      obtain rfl := Option.some.inj h
      rfl
  · intro it
    simp [runIteration]

/-- Witness for C7: a `Terminate` during `Ready` publishes `Terminated`
first, and in `Swept` a pending `Terminate` is ignored by the iteration. -/
theorem executor_terminate_signal_witness :
    (RunResult.mk [.Terminated] .success false false).published.head?
        = some BackendState.Terminated
    ∧ runIteration spec0 .Swept ⟨[.terminate], envAllOk⟩ =
        some (.next (step envAllOk spec0 .Swept).1) :=
  ⟨(executor_terminate_signal spec0 .Ready false [] envAllOk
      [⟨[.stepCompletes envAllOk], envAllOk⟩]).1 (by decide) _ rfl,
   (executor_terminate_signal spec0 .Ready false [] envAllOk []).2
      ⟨[.terminate], envAllOk⟩⟩

/-! ## Claim C3 (corrected) -/

/-- Counterexample to C3 as stated: when the signal sender is dropped
("Signal sender lost"), `run_backend` returns early and the backend's
entries in `backend_to_monitor` and `backend_to_listener` are NOT removed. -/
theorem executor_map_cleanup_counterexample :
    (runBackend spec0 .Ready true [⟨[.dropped], envAllOk⟩]).map
        RunResult.inListener = some true
    ∧ (runBackend spec0 .Ready true [⟨[.dropped], envAllOk⟩]).map
        RunResult.inMonitor = some true :=
  ⟨rfl, rfl⟩

/-- C3 as amended: on every exit of `run_backend` other than the early
return on a dropped signal sender, the backend is removed from both the
`backend_to_monitor` and `backend_to_listener` maps; on the dropped-sender
return the listener entry (and whatever monitor entry existed) remains. -/
theorem executor_map_cleanup (spec : SpawnRequest) :
    ∀ (iters : List Iteration) (state : BackendState) (inMon : Bool)
      (r : RunResult), runBackend spec state inMon iters = some r →
      (r.exit ≠ .senderLost → r.inMonitor = false ∧ r.inListener = false)
      ∧ (r.exit = .senderLost → r.inListener = true) := by
  intro iters
  induction iters with
  | nil =>
    intro state inMon r h
    cases h
  | cons it rest ih =>
    intro state inMon r h
    cases hi : runIteration spec state it with
    | none =>
      rw [runBackend_cons_none spec state inMon it rest hi] at h
      cases h
    | some ir =>
      cases ir with
      | senderLost =>
        rw [runBackend_cons_senderLost spec state inMon it rest hi] at h
        obtain rfl := Option.some.inj h
        exact ⟨fun hne => absurd rfl hne, fun _ => rfl⟩
      | next res =>
        cases res with
        | error e =>
          rw [runBackend_cons_error spec state inMon it rest e hi] at h
          obtain rfl := Option.some.inj h
          exact ⟨fun _ => ⟨rfl, rfl⟩, fun he => by cases he⟩
        | ok o =>
          cases o with
          | none =>
            rw [runBackend_cons_ok_none spec state inMon it rest hi] at h
            obtain rfl := Option.some.inj h
            exact ⟨fun _ => ⟨rfl, rfl⟩, fun he => by cases he⟩
          | some ns =>
            rw [runBackend_cons_ok_some spec state inMon it rest ns hi] at h
            cases hrec : runBackend spec ns (inMon || ns.running) rest with
            | none =>
              rw [hrec] at h
              cases h
            | some rr =>
              rw [hrec] at h
              obtain rfl := Option.some.inj h
              exact ih ns (inMon || ns.running) rr hrec

/-- Witness for the amended C3: a run ending in successful termination has
both map entries removed. -/
theorem executor_map_cleanup_witness :
    (RunResult.mk [] .success false false).inMonitor = false
    ∧ (RunResult.mk [] .success false false).inListener = false :=
  (executor_map_cleanup spec0 [⟨[.stepCompletes envAllOk], envAllOk⟩]
    .Terminated true (RunResult.mk [] .success false false) rfl).1 (by decide)

/-! ## Claim C8 (corrected): the published state sequence -/

/-- The transition edges `run_backend` can publish: the §4.5 step edges
(`Loading→Starting`, `Loading→ErrorLoading` via the error policy,
`Starting→Ready`, `Starting→ErrorStarting`, `Ready→Failed/Exited/Swept`)
together with the §4.6 terminate edges `s→Terminated` for every `s` other
than `Swept` (whose step is uninterruptible). -/
def edgeOk : BackendState → BackendState → Bool
  | .Loading, .Starting => true
  | .Loading, .ErrorLoading => true
  | .Starting, .Ready => true
  | .Starting, .ErrorStarting => true
  | .Ready, .Failed => true
  | .Ready, .Exited => true
  | .Ready, .Swept => true
  | a, .Terminated => a != .Swept
  | _, _ => false

/-- `stepChain s l` holds when `l` is a path through `edgeOk` starting
from `s`. -/
def stepChain : BackendState → List BackendState → Bool
  | _, [] => true
  | s, x :: xs => edgeOk s x && stepChain x xs

/-- Progression rank: every edge except `Terminated→Terminated` strictly
increases it. -/
def rank : BackendState → Nat
  | .Loading => 0
  | .Starting => 1
  | .Ready => 2
  | .Terminated => 4
  | _ => 3

theorem edgeOk_rank : ∀ a b, edgeOk a b = true →
    rank a < rank b ∨ (a = .Terminated ∧ b = .Terminated) := by decide

theorem rank_le_four : ∀ b, rank b ≤ 4 := by decide

theorem edgeOk_terminated {s : BackendState} (h : s ≠ .Swept) :
    edgeOk s .Terminated = true := by
  cases s <;> first | rfl | exact absurd rfl h

/-- A successful `step` only moves along the step edges. -/
theorem step_edge (env : StepEnv) (spec : SpawnRequest) (st ns : BackendState)
    (h : (step env spec st).1 = .ok (some ns)) : edgeOk st ns = true := by
  cases st
  case Loading =>
    cases hl : env.load with
    | error e => simp [step, hl] at h
    | ok u =>
      simp [step, hl] at h
      subst h
      decide
  case Starting =>
    cases hbs : env.backendStatus with
    | error e => simp [step, hbs] at h
    | ok s' =>
      cases s' with
      | Running a =>
        cases hwp : env.waitPortReady with
        | error e => simp [step, hbs, hwp] at h
        | ok u =>
          cases hpr : env.insertProxyRoute with
          | error e => simp [step, hbs, hwp, hpr] at h
          | ok u2 =>
            simp [step, hbs, hwp, hpr] at h
            subst h
            decide
      | Loading =>
        simp [step, hbs] at h
        subst h
        decide
      | Starting =>
        simp [step, hbs] at h
        subst h
        decide
      | Failed =>
        simp [step, hbs] at h
        subst h
        decide
      | Exited =>
        simp [step, hbs] at h
        subst h
        decide
      | Terminated =>
        simp [step, hbs] at h
        subst h
        decide
  case Ready =>
    cases hbs : env.backendStatus with
    | error e => simp [step, hbs] at h
    | ok s' =>
      cases s' with
      | Failed =>
        simp [step, hbs] at h
        subst h
        decide
      | Exited =>
        simp [step, hbs] at h
        subst h
        decide
      | Terminated =>
        simp [step, hbs] at h
        subst h
        decide
      | Loading =>
        cases hio : env.idleOutcome with
        | error e => simp [step, hbs, hio] at h
        | ok u =>
          simp [step, hbs, hio] at h
          subst h
          decide
      | Starting =>
        cases hio : env.idleOutcome with
        | error e => simp [step, hbs, hio] at h
        | ok u =>
          simp [step, hbs, hio] at h
          subst h
          decide
      | Running a =>
        cases hio : env.idleOutcome with
        | error e => simp [step, hbs, hio] at h
        | ok u =>
          simp [step, hbs, hio] at h
          subst h
          decide
  all_goals cases hst : env.stop <;> simp [step, hst] at h

/-- A race that resolves to a successful new state either came from the
`Terminate` signal (giving `Terminated`) or from a completed step. -/
theorem runRace_next_ok (spec : SpawnRequest) (state : BackendState) :
    ∀ (evts : List RaceEvent) (ns : BackendState),
      runRace spec state evts = some (.next (.ok (some ns))) →
      ns = .Terminated ∨ ∃ env, (step env spec state).1 = .ok (some ns) := by
  intro evts
  induction evts with
  | nil =>
    intro ns h
    cases h
  | cons e rest ih =>
    intro ns h
    cases e with
    | interrupt => exact ih ns h
    | terminate =>
      simp only [runRace, Option.some.injEq, InnerResult.next.injEq,
        Except.ok.injEq] at h
      exact Or.inl h.symm
    | dropped => simp [runRace] at h
    | stepCompletes env =>
      simp only [runRace, Option.some.injEq, InnerResult.next.injEq] at h
      exact Or.inr ⟨env, h⟩

/-- Every successful `run_backend` run publishes a path through `edgeOk`. -/
theorem runBackend_chain (spec : SpawnRequest) :
    ∀ (iters : List Iteration) (state : BackendState) (inMon : Bool)
      (r : RunResult), runBackend spec state inMon iters = some r →
      stepChain state r.published = true := by
  intro iters
  induction iters with
  | nil =>
    intro state inMon r h
    cases h
  | cons it rest ih =>
    intro state inMon r h
    cases hi : runIteration spec state it with
    | none =>
      rw [runBackend_cons_none spec state inMon it rest hi] at h
      cases h
    | some ir =>
      cases ir with
      | senderLost =>
        rw [runBackend_cons_senderLost spec state inMon it rest hi] at h
        obtain rfl := Option.some.inj h
        rfl
      | next res =>
        cases res with
        | error e =>
          rw [runBackend_cons_error spec state inMon it rest e hi] at h
          obtain rfl := Option.some.inj h
          cases state <;> rfl
        | ok o =>
          cases o with
          | none =>
            rw [runBackend_cons_ok_none spec state inMon it rest hi] at h
            obtain rfl := Option.some.inj h
            rfl
          | some ns =>
            rw [runBackend_cons_ok_some spec state inMon it rest ns hi] at h
            cases hrec : runBackend spec ns (inMon || ns.running) rest with
            | none =>
              rw [hrec] at h
              cases h
            | some rr =>
              rw [hrec] at h
              obtain rfl := Option.some.inj h
              have hchain := ih ns (inMon || ns.running) rr hrec
              have hedge : edgeOk state ns = true := by
                by_cases hs : state = .Swept
                · subst hs
                  rw [runIteration, if_pos rfl] at hi
                  exact step_edge it.sweptEnv spec _ ns
                    (InnerResult.next.inj (Option.some.inj hi))
                · rw [runIteration, if_neg hs] at hi
                  rcases runRace_next_ok spec state it.events ns hi with
                    rfl | ⟨env, henv⟩
                  · exact edgeOk_terminated hs
                  · exact step_edge env spec state ns henv
              simp only [stepChain, Bool.and_eq_true]
              exact ⟨hedge, hchain⟩

/-- Along a chain, every later state has strictly larger rank than the head
unless it is `Terminated`. -/
theorem stepChain_rank : ∀ (l : List BackendState) (s : BackendState),
    stepChain s l = true → ∀ y ∈ l, rank s < rank y ∨ y = .Terminated := by
  intro l
  induction l with
  | nil =>
    intro s _ y hy
    cases hy
  | cons x xs ih =>
    intro s h y hy
    rw [stepChain, Bool.and_eq_true] at h
    rcases List.mem_cons.mp hy with rfl | hy'
    · rcases edgeOk_rank s y h.1 with h1 | h1
      · exact Or.inl h1
      · exact Or.inr h1.2
    · rcases ih x h.2 y hy' with h1 | h1
      · rcases edgeOk_rank s x h.1 with h2 | h2
        · exact Or.inl (lt_trans h2 h1)
        · have hx4 : rank x = 4 := by rw [h2.2]; rfl
          have hy4 := rank_le_four y
          exact absurd h1 (by omega)
      · exact Or.inr h1

/-- In a chain prefixed with its start state, no state except `Terminated`
occurs more than once. -/
theorem stepChain_count : ∀ (l : List BackendState) (s : BackendState),
    stepChain s l = true →
    ∀ x, x ≠ .Terminated → (s :: l).count x ≤ 1 := by
  intro l
  induction l with
  | nil =>
    intro s _ x _
    by_cases hxs : x = s
    · simp [hxs]
    · simp [List.count_cons_of_ne hxs]
  | cons y ys ih =>
    intro s h x hx
    have hsplit := h
    rw [stepChain, Bool.and_eq_true] at hsplit
    by_cases hxs : x = s
    · subst hxs
      have hnm : x ∉ y :: ys := by
        intro hmem
        rcases stepChain_rank (y :: ys) x h x hmem with h1 | h1
        · exact lt_irrefl _ h1
        · exact hx h1
      rw [List.count_cons_self, List.count_eq_zero.mpr hnm]
    · rw [List.count_cons_of_ne hxs]
      exact ih y hsplit.2 x hx

/-- Counterexample to C8 as stated: two `Terminate` signals in a row make
`run_backend` publish `Terminated` twice, revisiting a state. -/
theorem executor_published_path_counterexample :
    (runBackend spec0 .Ready false
      [⟨[.terminate], envAllOk⟩, ⟨[.terminate], envAllOk⟩,
       ⟨[.stepCompletes envAllOk], envAllOk⟩]).map RunResult.published
      = some [.Terminated, .Terminated] := rfl

/-- C8 as amended: every state sequence `run_backend` persists and publishes
is a valid path through the §4.5 graph extended with the §4.6 terminate
edges, and no state other than `Terminated` is ever revisited (`Terminated`
may be re-published when further `Terminate` signals arrive; an `Interrupt`
restarts the step without publishing). -/
theorem executor_published_path (spec : SpawnRequest) (state : BackendState)
    (inMon : Bool) (iters : List Iteration) (r : RunResult)
    (h : runBackend spec state inMon iters = some r) :
    stepChain state r.published = true
    ∧ ∀ x, x ≠ .Terminated → ((state :: r.published).count x ≤ 1) := by
  have hc := runBackend_chain spec iters state inMon r h
  exact ⟨hc, fun x hx => stepChain_count r.published state hc x hx⟩

/-- Witness for C8 on a full healthy run
`Loading → Starting → Ready → Swept → done`. -/
theorem executor_published_path_witness :
    stepChain .Loading [.Starting, .Ready, .Swept] = true :=
  (executor_published_path spec0 .Loading false
    [⟨[.stepCompletes envAllOk], envAllOk⟩,
     ⟨[.stepCompletes envAllOk], envAllOk⟩,
     ⟨[.stepCompletes envAllOk], envAllOk⟩,
     ⟨[], envAllOk⟩]
    ⟨[.Starting, .Ready, .Swept], .success, false, false⟩ rfl).1

end Spawner
